import Mathlib

/-!
Verification of the job-execution and run-history pipeline of the
fouchger_homelab repository, as a shallow embedding in Lean.

The embedded code:
- `src/fouchger_homelab/domain/jobs.py` (`Job`, `JobResult`)
- `src/fouchger_homelab/domain/history_store.py` (`RunRecord`, `HistoryStore`)
- `src/fouchger_homelab/domain/direct_runner.py` (`DirectRunner`)
- `src/fouchger_homelab/app.py` (`HomelabApp.submit_job`, `_run_job`,
  `on_job_finished`)

Modelling conventions: filesystem paths are lists of components; datetimes are
kept in the form the pipeline actually consumes them in (the ISO-8601 string
for `created_at`, abstract clock readings for the runner timestamps); the
SQLite `runs` table is a list of rows in rowid order, with INSERT OR REPLACE,
UPDATE and ORDER BY ... LIMIT given their documented SQLite semantics; the
thread structure of the coordinator is a step relation over the worker pool,
the single message queue and the trace of history-store calls.
-/

/-- A filesystem path, as its list of components (`pathlib.Path` in the source). -/
abbrev FsPath := List String

/-- Rendering of a path as a string: `str(Path)` in `record_finished`. -/
def pathStr (p : FsPath) : String := String.intercalate "/" p

/-- jobs.py `Job`: immutable description of one external command. `created_at`
holds the ISO-8601 string that `created_at.isoformat()` yields, which is the
only form the pipeline consumes. -/
structure Job where
  name : String
  argv : List String
  cwd : FsPath
  env : List (String × String)
  run_id : String
  created_at : String
deriving DecidableEq

/-- jobs.py `JobResult`: result of a Job execution. The two timestamps are
abstract clock readings (`datetime.utcnow()` values). -/
structure JobResult where
  run_id : String
  exit_code : Int
  stdout_path : FsPath
  stderr_path : FsPath
  started_at : Nat
  finished_at : Nat
deriving DecidableEq

/-- history_store.py `RunRecord`, one row of the `runs` table. -/
structure RunRecord where
  run_id : String
  created_at_utc : String
  job_name : String
  status : String
  exit_code : Int
  stdout_path : String
  stderr_path : String
deriving DecidableEq

/-- The `runs` table: rows in rowid (insertion) order. -/
abbrev HistoryStore.Store := List RunRecord

/-- The row that `record_started` writes: status `running`, exit code -1,
empty log paths, `created_at_utc` from the job. -/
def HistoryStore.startedRow (job : Job) : RunRecord :=
  { run_id := job.run_id
    created_at_utc := job.created_at
    job_name := job.name
    status := "running"
    exit_code := -1
    stdout_path := ""
    stderr_path := "" }

/-- history_store.py `record_started`: INSERT OR REPLACE INTO runs. SQLite
deletes any row with the conflicting primary key and inserts the fresh row
with a new rowid, so the fresh row goes to the end of the table. -/
def HistoryStore.record_started (st : HistoryStore.Store) (job : Job) :
    HistoryStore.Store :=
  st.filter (fun r => decide (r.run_id ≠ job.run_id)) ++ [HistoryStore.startedRow job]

/-- history_store.py line 79: the status written at completion is computed from
the exit code alone. -/
def HistoryStore.statusOf (exit_code : Int) : String :=
  if exit_code = 0 then "success" else "failed"

/-- The SET clause of the UPDATE in `record_finished`, applied to one row. -/
def HistoryStore.finishedUpdate (result : JobResult) (r : RunRecord) : RunRecord :=
  { r with
    status := HistoryStore.statusOf result.exit_code
    exit_code := result.exit_code
    stdout_path := pathStr result.stdout_path
    stderr_path := pathStr result.stderr_path }

/-- history_store.py `record_finished`: UPDATE runs SET ... WHERE run_id = ?.
Every row whose `run_id` matches is updated in place; rows that do not match
are untouched; an UPDATE matching zero rows is a no-op. The `job` argument is
unused, as in the source. -/
def HistoryStore.record_finished (st : HistoryStore.Store) (_job : Job)
    (result : JobResult) : HistoryStore.Store :=
  st.map (fun r =>
    if r.run_id = result.run_id then HistoryStore.finishedUpdate result r else r)

/-- Comparison used by ORDER BY created_at_utc DESC: row `a` sorts before row
`b` when its `created_at_utc` TEXT is at least that of `b`. -/
def HistoryStore.laterEq (a b : RunRecord) : Bool :=
  decide (b.created_at_utc ≤ a.created_at_utc)

/-- history_store.py `latest`: SELECT ... ORDER BY created_at_utc DESC LIMIT ?.
The limit is a Python int bound straight into the LIMIT clause; SQLite treats
a negative LIMIT as "no upper bound". -/
def HistoryStore.latest (st : HistoryStore.Store) (limit : Int) : List RunRecord :=
  let sorted := st.mergeSort HistoryStore.laterEq
  if limit < 0 then sorted else sorted.take limit.toNat

/-- The Popen call: process launch parameters as direct_runner.py builds them.
`shell` records whether a shell interpreter is interposed; subprocess.Popen
defaults it to false and direct_runner.py never sets it. -/
structure LaunchSpec where
  argv : List String
  cwd : FsPath
  env : String → Option String
  shell : Bool

/-- The environment handed to Popen: `{**os.environ, **job.env}` — the ambient
process environment overlaid with the job mapping, job keys winning. -/
def mergeEnv (ambient : String → Option String) (jobEnv : List (String × String)) :
    String → Option String :=
  fun k =>
    match jobEnv.lookup k with
    | some v => some v
    | none => ambient k

/-- One OS interaction performed by `DirectRunner.execute`, in program order:
directory creation, a `datetime.utcnow()` reading, opening an output file,
spawning the child, and `proc.wait()` returning the exit code. -/
inductive OsEvent where
  | mkdirEv (dir : FsPath)
  | timeEv (t : Nat)
  | openEv (file : FsPath)
  | spawnEv (spec : LaunchSpec)
  | waitEv (code : Int)

/-- direct_runner.py `DirectRunner`: holds the runs root directory. -/
structure DirectRunner where
  runs_dir : FsPath

def DirectRunner.describe (_ : DirectRunner) : String :=
  "Direct execution on control plane"

/-- direct_runner.py `execute`, embedded as the sequence of OS interactions the
method performs together with the `JobResult` it returns. `clock` supplies the
successive `datetime.utcnow()` readings and `procExit` the exit code the
spawned child eventually terminates with. The event list reflects source
order: mkdir, read `started_at`, open the two log files, spawn, wait for
termination, read `finished_at`, return. -/
def DirectRunner.execute (self : DirectRunner) (ambient : String → Option String)
    (clock : Nat → Nat) (procExit : LaunchSpec → Int) (job : Job) :
    JobResult × List OsEvent :=
  let run_dir := self.runs_dir ++ [job.run_id]
  let stdout_path := run_dir ++ ["stdout.log"]
  let stderr_path := run_dir ++ ["stderr.log"]
  let started_at := clock 0
  let spec : LaunchSpec :=
    { argv := job.argv
      cwd := job.cwd
      env := mergeEnv ambient job.env
      shell := false }
  let exit_code := procExit spec
  let finished_at := clock 1
  ({ run_id := job.run_id
     exit_code := exit_code
     stdout_path := stdout_path
     stderr_path := stderr_path
     started_at := started_at
     finished_at := finished_at },
   [OsEvent.mkdirEv run_dir, OsEvent.timeEv started_at,
    OsEvent.openEv stdout_path, OsEvent.openEv stderr_path,
    OsEvent.spawnEv spec, OsEvent.waitEv exit_code,
    OsEvent.timeEv finished_at])

/-- Observable history-store calls of the coordination pipeline:
`record_started` made by `submit_job` and `record_finished` made by
`on_job_finished`, tagged with the run id they concern. -/
inductive AppEvent where
  | started (rid : String)
  | finished (rid : String)
deriving DecidableEq

/-- State of the coordination pipeline of app.py: run ids handed to worker
threads and not yet terminated (`_run_job` executing), completion messages
posted with `post_message` and not yet delivered (the single ordered message
queue of the UI thread), and the trace of history-store calls made so far. -/
structure CoordState where
  running : List String
  inbox : List String
  trace : List AppEvent
deriving DecidableEq

/-- The pipeline state at application startup: nothing running, empty queue,
no history calls. -/
def CoordState.start : CoordState := ⟨[], [], []⟩

/-- One transition of the coordination pipeline, as implemented in app.py.
`submit` is `submit_job`: it calls `record_started` synchronously on the
calling thread and hands the job to a worker; the freshness guard encodes
normal operation, in which `uuid4` run ids are unique and a job is submitted
once. `complete` is a worker finishing `Runner.execute` and posting
`JobFinished` to the message queue. `deliver` is the UI thread consuming the
head of the queue, running `on_job_finished`, which calls `record_finished`. -/
inductive CoordStep : CoordState → CoordState → Prop where
  | submit (s : CoordState) (rid : String)
      (fresh : AppEvent.started rid ∉ s.trace) :
      CoordStep s ⟨rid :: s.running, s.inbox, s.trace ++ [AppEvent.started rid]⟩
  | complete (s : CoordState) (rid : String) (hmem : rid ∈ s.running) :
      CoordStep s ⟨s.running.erase rid, s.inbox ++ [rid], s.trace⟩
  | deliver (s : CoordState) (rid : String) (rest : List String)
      (hq : s.inbox = rid :: rest) :
      CoordStep s ⟨s.running, rest, s.trace ++ [AppEvent.finished rid]⟩

/-- Pipeline states reachable from startup. -/
inductive CoordReachable : CoordState → Prop where
  | base : CoordReachable CoordState.start
  | step {s t : CoordState} : CoordReachable s → CoordStep s t → CoordReachable t

/-- How many carriers of a run id exist: a worker executing it, a queued
completion message for it, or a recorded finish for it. -/
def ridLoad (s : CoordState) (rid : String) : Nat :=
  s.running.count rid + s.inbox.count rid + s.trace.count (AppEvent.finished rid)

/-- Inductive invariant of the pipeline: every run id has at most one carrier;
a run id in flight or finished was started; and every recorded finish is
preceded in the trace by the matching start. -/
def CoordInv (s : CoordState) : Prop :=
  ∀ rid : String,
    ridLoad s rid ≤ 1 ∧
    ((rid ∈ s.running ∨ rid ∈ s.inbox ∨ AppEvent.finished rid ∈ s.trace) →
      AppEvent.started rid ∈ s.trace) ∧
    (∀ (i : Nat) (hi : i < s.trace.length), s.trace[i] = AppEvent.finished rid →
      ∃ (j : Nat) (hj : j < s.trace.length), j < i ∧
        s.trace[j] = AppEvent.started rid)

/-- A user-visible UI effect of `on_job_finished`: the toast notification and
the completion log line it posts. -/
inductive UiEvent where
  | notifyEv (text : String)
  | logLineEv (text : String)
deriving DecidableEq

/-- app.py `on_job_finished`, the handler run when a `JobFinished` message is
delivered. Its first statement calls `HistoryStore.record_finished`;
`persisted` is the outcome of that call: the updated store, or the raised
error when the underlying SQLite write fails. The handler has no exception
handling, so the remaining statements — the `notify` toast and the completion
log line — run only after a successful write, and a persistence error
propagates out of the handler. -/
def on_job_finished (persisted : Except String HistoryStore.Store)
    (job : Job) (result : JobResult) :
    Except String (HistoryStore.Store × List UiEvent) := do
  let st ← persisted
  let status := if result.exit_code = 0 then "Success"
    else "Failed (exit " ++ toString result.exit_code ++ ")"
  pure (st,
    [UiEvent.notifyEv (job.name ++ ": " ++ status),
     UiEvent.logLineEv ("Completed " ++ job.name ++ " run_id=" ++ result.run_id
       ++ " exit=" ++ toString result.exit_code)])

/-- Concrete job used by witnesses. -/
def exJob : Job :=
  { name := "echo", argv := ["echo", "hi"], cwd := ["tmp"], env := []
    run_id := "aaaa", created_at := "2026-01-01T00:00:00" }

/-- Concrete successful result matching `exJob`. -/
def exResultOk : JobResult :=
  { run_id := "aaaa", exit_code := 0
    stdout_path := ["runs", "aaaa", "stdout.log"]
    stderr_path := ["runs", "aaaa", "stderr.log"]
    started_at := 3, finished_at := 5 }

/-- Concrete result whose run id matches no row of the witness store. -/
def exResultOther : JobResult :=
  { run_id := "bbbb", exit_code := 2
    stdout_path := ["runs", "bbbb", "stdout.log"]
    stderr_path := ["runs", "bbbb", "stderr.log"]
    started_at := 7, finished_at := 9 }

/-- Concrete one-row store used by witnesses. -/
def exStoreOne : HistoryStore.Store := [HistoryStore.startedRow exJob]

/-- Concrete pipeline state: one job submitted, completed and delivered. -/
def exCoordState : CoordState :=
  ⟨[], [], [AppEvent.started "a", AppEvent.finished "a"]⟩

/-- The status strings are distinct constants derived from the exit code. -/
theorem HistoryStore.statusOf_eq_success_iff (code : Int) :
    (HistoryStore.statusOf code = "success" ↔ code = 0) ∧
    (HistoryStore.statusOf code = "failed" ↔ code ≠ 0) := by
  unfold HistoryStore.statusOf
  by_cases h : code = 0 <;> simp [h]

/-- C1: the status written by `record_finished` is derived purely from the exit
code of the result: every row it writes for the finished run has status
`success` exactly when `exit_code = 0`, and status `failed` exactly when the
exit code is nonzero. -/
theorem record_finished_status_from_exit_code
    (st : HistoryStore.Store) (job : Job) (result : JobResult) (r : RunRecord)
    (hr : r ∈ HistoryStore.record_finished st job result)
    (hid : r.run_id = result.run_id) :
    (r.status = "success" ↔ result.exit_code = 0) ∧
    (r.status = "failed" ↔ result.exit_code ≠ 0) := by
  unfold HistoryStore.record_finished at hr
  obtain ⟨a, _ha, hfa⟩ := List.mem_map.mp hr
  by_cases hcase : a.run_id = result.run_id
  · rw [if_pos hcase] at hfa
    subst hfa
    exact HistoryStore.statusOf_eq_success_iff result.exit_code
  · rw [if_neg hcase] at hfa
    subst hfa
    exact absurd hid hcase

/-- Witness for C1 at a concrete store, job and result. -/
theorem record_finished_status_from_exit_code_witness :
    ((HistoryStore.finishedUpdate exResultOk (HistoryStore.startedRow exJob)).status
        = "success" ↔ exResultOk.exit_code = 0) ∧
    ((HistoryStore.finishedUpdate exResultOk (HistoryStore.startedRow exJob)).status
        = "failed" ↔ exResultOk.exit_code ≠ 0) := by
  have h := record_finished_status_from_exit_code
    [HistoryStore.startedRow exJob] exJob exResultOk
    (HistoryStore.finishedUpdate exResultOk (HistoryStore.startedRow exJob))
    (by simp [HistoryStore.record_finished, HistoryStore.startedRow, exJob, exResultOk])
    (by simp [HistoryStore.finishedUpdate, HistoryStore.startedRow, exJob, exResultOk])
  exact h

/-- C5: `record_started` is idempotent. Running it twice with the same job is
the same store transformation as running it once, the resulting table holds
exactly one row keyed by the run id of the job, and the operation is total (a
duplicate run id replaces, it is never a conflict error). -/
theorem record_started_idempotent (st : HistoryStore.Store) (job : Job) :
    HistoryStore.record_started (HistoryStore.record_started st job) job
        = HistoryStore.record_started st job ∧
    (HistoryStore.record_started st job).countP
        (fun r => decide (r.run_id = job.run_id)) = 1 := by
  constructor
  · unfold HistoryStore.record_started
    rw [List.filter_append, List.filter_filter]
    simp [HistoryStore.startedRow]
  · unfold HistoryStore.record_started
    rw [List.countP_append]
    have h0 : (st.filter (fun r => decide (r.run_id ≠ job.run_id))).countP
        (fun r => decide (r.run_id = job.run_id)) = 0 := by
      rw [List.countP_eq_zero]
      intro a ha
      have hne := (List.mem_filter.mp ha).2
      simp only [decide_eq_true_eq] at hne ⊢
      exact hne
    rw [h0]
    simp [HistoryStore.startedRow, List.countP_cons]

/-- C8: when no row matches the run id of the result, `record_finished` does
not fail and leaves the store unchanged (an UPDATE affecting zero rows). -/
theorem record_finished_missing_row_noop
    (st : HistoryStore.Store) (job : Job) (result : JobResult)
    (h : ∀ r ∈ st, r.run_id ≠ result.run_id) :
    HistoryStore.record_finished st job result = st := by
  unfold HistoryStore.record_finished
  have hcongr : ∀ r ∈ st,
      (if r.run_id = result.run_id then HistoryStore.finishedUpdate result r else r)
        = id r := by
    intro r hr
    rw [if_neg (h r hr)]
    rfl
  rw [List.map_congr_left hcongr, List.map_id]

/-- Witness for C8: a store holding one row for a different run id is returned
unchanged. -/
theorem record_finished_missing_row_noop_witness :
    HistoryStore.record_finished [HistoryStore.startedRow exJob] exJob exResultOther
      = [HistoryStore.startedRow exJob] :=
  record_finished_missing_row_noop [HistoryStore.startedRow exJob] exJob exResultOther
    (by decide)

/-- C10: frame property of `record_finished`. The table keeps its length; a row
whose run id differs from the result is returned unchanged at its position; the
row whose run id matches keeps its `run_id`, `created_at_utc` and `job_name`
and has exactly its `status`, `exit_code`, `stdout_path` and `stderr_path`
replaced by the values derived from the result. -/
theorem record_finished_frame
    (st : HistoryStore.Store) (job : Job) (result : JobResult) :
    (HistoryStore.record_finished st job result).length = st.length ∧
    ∀ (i : Nat) (r : RunRecord), st[i]? = some r →
      (r.run_id ≠ result.run_id →
        (HistoryStore.record_finished st job result)[i]? = some r) ∧
      (r.run_id = result.run_id →
        ∃ r', (HistoryStore.record_finished st job result)[i]? = some r' ∧
          r'.run_id = r.run_id ∧
          r'.created_at_utc = r.created_at_utc ∧
          r'.job_name = r.job_name ∧
          r'.status = HistoryStore.statusOf result.exit_code ∧
          r'.exit_code = result.exit_code ∧
          r'.stdout_path = pathStr result.stdout_path ∧
          r'.stderr_path = pathStr result.stderr_path) := by
  constructor
  · exact List.length_map st _
  · intro i r hir
    unfold HistoryStore.record_finished
    rw [List.getElem?_map, hir]
    constructor
    · intro hne
      simp [if_neg hne]
    · intro heq
      refine ⟨HistoryStore.finishedUpdate result r, ?_, rfl, rfl, rfl, rfl, rfl, rfl, rfl⟩
      simp [if_pos heq]

/-- Witness for C10 at a concrete one-row store whose row matches the result. -/
theorem record_finished_frame_witness :
    ((HistoryStore.startedRow exJob).run_id ≠ exResultOk.run_id →
      (HistoryStore.record_finished [HistoryStore.startedRow exJob] exJob exResultOk)[0]?
        = some (HistoryStore.startedRow exJob)) ∧
    ((HistoryStore.startedRow exJob).run_id = exResultOk.run_id →
      ∃ r', (HistoryStore.record_finished [HistoryStore.startedRow exJob] exJob
          exResultOk)[0]? = some r' ∧
        r'.run_id = (HistoryStore.startedRow exJob).run_id ∧
        r'.created_at_utc = (HistoryStore.startedRow exJob).created_at_utc ∧
        r'.job_name = (HistoryStore.startedRow exJob).job_name ∧
        r'.status = HistoryStore.statusOf exResultOk.exit_code ∧
        r'.exit_code = exResultOk.exit_code ∧
        r'.stdout_path = pathStr exResultOk.stdout_path ∧
        r'.stderr_path = pathStr exResultOk.stderr_path) :=
  (record_finished_frame [HistoryStore.startedRow exJob] exJob exResultOk).2 0
    (HistoryStore.startedRow exJob) rfl

theorem laterEq_trans (a b c : RunRecord) :
    HistoryStore.laterEq a b → HistoryStore.laterEq b c → HistoryStore.laterEq a c := by
  intro hab hbc
  simp only [HistoryStore.laterEq, decide_eq_true_eq] at hab hbc ⊢
  exact le_trans hbc hab

theorem laterEq_total (a b : RunRecord) :
    HistoryStore.laterEq a b || HistoryStore.laterEq b a := by
  simp only [HistoryStore.laterEq, Bool.or_eq_true, decide_eq_true_eq]
  exact le_total b.created_at_utc a.created_at_utc

/-- Membership in the full `latest` listing (limit = table size) is membership
in the table. -/
theorem mem_latest_all (st : HistoryStore.Store) (x : RunRecord) :
    x ∈ HistoryStore.latest st (st.length : Int) ↔ x ∈ st := by
  unfold HistoryStore.latest
  rw [if_neg (Int.not_lt.mpr (Int.natCast_nonneg st.length))]
  rw [Int.toNat_natCast]
  rw [List.take_of_length_le (le_of_eq (List.length_mergeSort st))]
  exact List.mem_mergeSort

/-- C4 (amended): `latest` always returns records ordered by `created_at_utc`
descending, and when the limit is nonnegative it returns at most that many
records. A negative limit reaches SQLite LIMIT, which treats it as unbounded. -/
theorem latest_sorted_limit (st : HistoryStore.Store) (n : Int) :
    (HistoryStore.latest st n).Pairwise
      (fun a b => b.created_at_utc ≤ a.created_at_utc) ∧
    (0 ≤ n → ((HistoryStore.latest st n).length : Int) ≤ n) := by
  have hms : (st.mergeSort HistoryStore.laterEq).Pairwise
      (fun a b => b.created_at_utc ≤ a.created_at_utc) := by
    have h := List.sorted_mergeSort laterEq_trans laterEq_total st
    exact h.imp (fun hab => by
      simpa only [HistoryStore.laterEq, decide_eq_true_eq] using hab)
  unfold HistoryStore.latest
  by_cases hneg : n < 0
  · rw [if_pos hneg]
    exact ⟨hms, fun hge => absurd hneg (Int.not_lt.mpr hge)⟩
  · rw [if_neg hneg]
    refine ⟨hms.sublist (List.take_sublist _ _), fun hge => ?_⟩
    have hlen : (((st.mergeSort HistoryStore.laterEq).take n.toNat).length) ≤ n.toNat := by
      rw [List.length_take]
      exact min_le_left _ _
    calc (((st.mergeSort HistoryStore.laterEq).take n.toNat).length : Int)
        ≤ (n.toNat : Int) := Int.ofNat_le.mpr hlen
      _ = n := Int.toNat_of_nonneg hge

/-- Counterexample to C4 as stated: with a negative limit, `latest` does not
return at most `limit` records. A one-row store queried with limit -1 yields
one record, and one is not at most -1. -/
theorem latest_negative_limit_counterexample :
    ¬ (((HistoryStore.latest exStoreOne (-1)).length : Int) ≤ (-1 : Int)) := by
  have h : HistoryStore.latest exStoreOne (-1) = exStoreOne := by
    simp [HistoryStore.latest, exStoreOne]
  rw [h]
  decide

/-- Witness for C4 (amended) at a concrete store and limit 0. -/
theorem latest_sorted_limit_witness :
    (HistoryStore.latest exStoreOne 0).Pairwise
      (fun a b => b.created_at_utc ≤ a.created_at_utc) ∧
    ((HistoryStore.latest exStoreOne 0).length : Int) ≤ 0 :=
  ⟨(latest_sorted_limit exStoreOne 0).1,
   (latest_sorted_limit exStoreOne 0).2 (by decide)⟩

/-- C6: round-trip. After `record_finished`, reading the store back (via
`latest` over the whole table) finds a record for the run id of the result,
and every such record carries exactly the exit code and the two log paths
passed in via the `JobResult`. -/
theorem record_finished_roundtrip
    (st : HistoryStore.Store) (job : Job) (result : JobResult)
    (h : ∃ r ∈ st, r.run_id = result.run_id) :
    (∃ rec ∈ HistoryStore.latest (HistoryStore.record_finished st job result)
        ((HistoryStore.record_finished st job result).length : Int),
      rec.run_id = result.run_id) ∧
    (∀ rec ∈ HistoryStore.latest (HistoryStore.record_finished st job result)
        ((HistoryStore.record_finished st job result).length : Int),
      rec.run_id = result.run_id →
        rec.exit_code = result.exit_code ∧
        rec.stdout_path = pathStr result.stdout_path ∧
        rec.stderr_path = pathStr result.stderr_path) := by
  constructor
  · obtain ⟨r, hr, hid⟩ := h
    refine ⟨HistoryStore.finishedUpdate result r, ?_, hid⟩
    rw [mem_latest_all]
    unfold HistoryStore.record_finished
    have := List.mem_map_of_mem
      (fun r => if r.run_id = result.run_id then HistoryStore.finishedUpdate result r else r)
      hr
    simp only [if_pos hid] at this
    exact this
  · intro rec hrec hid
    rw [mem_latest_all] at hrec
    unfold HistoryStore.record_finished at hrec
    obtain ⟨a, _ha, hfa⟩ := List.mem_map.mp hrec
    by_cases hcase : a.run_id = result.run_id
    · rw [if_pos hcase] at hfa
      subst hfa
      exact ⟨rfl, rfl, rfl⟩
    · rw [if_neg hcase] at hfa
      subst hfa
      exact absurd hid hcase

/-- Witness for C6 at a concrete one-row store. -/
theorem record_finished_roundtrip_witness :
    (∃ rec ∈ HistoryStore.latest
        (HistoryStore.record_finished exStoreOne exJob exResultOk)
        ((HistoryStore.record_finished exStoreOne exJob exResultOk).length : Int),
      rec.run_id = exResultOk.run_id) ∧
    (∀ rec ∈ HistoryStore.latest
        (HistoryStore.record_finished exStoreOne exJob exResultOk)
        ((HistoryStore.record_finished exStoreOne exJob exResultOk).length : Int),
      rec.run_id = exResultOk.run_id →
        rec.exit_code = exResultOk.exit_code ∧
        rec.stdout_path = pathStr exResultOk.stdout_path ∧
        rec.stderr_path = pathStr exResultOk.stderr_path) :=
  record_finished_roundtrip exStoreOne exJob exResultOk
    ⟨HistoryStore.startedRow exJob, by decide, by decide⟩

/-- C2: for every job, `DirectRunner.execute` returns a `JobResult` whose
`run_id` is that of the job and whose log paths are `stdout.log` and
`stderr.log` inside `<runs_root>/<run_id>/`; in its trace, the `started_at`
reading strictly precedes the spawn, and the wait that both blocks on the
child and supplies the exit code of the result strictly precedes the
`finished_at` reading. -/
theorem direct_runner_execute_result (self : DirectRunner)
    (ambient : String → Option String) (clock : Nat → Nat)
    (procExit : LaunchSpec → Int) (job : Job) :
    (self.execute ambient clock procExit job).1.run_id = job.run_id ∧
    (self.execute ambient clock procExit job).1.stdout_path
        = self.runs_dir ++ [job.run_id, "stdout.log"] ∧
    (self.execute ambient clock procExit job).1.stderr_path
        = self.runs_dir ++ [job.run_id, "stderr.log"] ∧
    ∃ iStart iSpawn iWait iFin :
        Fin (self.execute ambient clock procExit job).2.length,
      (self.execute ambient clock procExit job).2.get iStart
          = OsEvent.timeEv (self.execute ambient clock procExit job).1.started_at ∧
      (∃ spec, (self.execute ambient clock procExit job).2.get iSpawn
          = OsEvent.spawnEv spec) ∧
      (self.execute ambient clock procExit job).2.get iWait
          = OsEvent.waitEv (self.execute ambient clock procExit job).1.exit_code ∧
      (self.execute ambient clock procExit job).2.get iFin
          = OsEvent.timeEv (self.execute ambient clock procExit job).1.finished_at ∧
      iStart < iSpawn ∧ iSpawn < iWait ∧ iWait < iFin := by
  refine ⟨rfl, by simp [DirectRunner.execute], by simp [DirectRunner.execute], ?_⟩
  refine ⟨⟨1, by simp [DirectRunner.execute]⟩, ⟨4, by simp [DirectRunner.execute]⟩,
    ⟨5, by simp [DirectRunner.execute]⟩, ⟨6, by simp [DirectRunner.execute]⟩,
    rfl, ⟨_, rfl⟩, rfl, rfl, ?_, ?_, ?_⟩
  · exact Nat.lt_of_sub_eq_succ rfl
  · exact Nat.lt_of_sub_eq_succ rfl
  · exact Nat.lt_of_sub_eq_succ rfl

/-- C7: the spawn performed by `DirectRunner.execute` uses exactly the literal
argument vector of the job, no shell interpreter, the working directory of the
job, and the ambient environment overlaid with the job environment, job keys
winning on collision. -/
theorem direct_runner_launch (self : DirectRunner)
    (ambient : String → Option String) (clock : Nat → Nat)
    (procExit : LaunchSpec → Int) (job : Job) :
    ∃ spec : LaunchSpec,
      OsEvent.spawnEv spec ∈ (self.execute ambient clock procExit job).2 ∧
      spec.argv = job.argv ∧
      spec.shell = false ∧
      spec.cwd = job.cwd ∧
      (∀ k v, job.env.lookup k = some v → spec.env k = some v) ∧
      (∀ k, job.env.lookup k = none → spec.env k = ambient k) := by
  refine ⟨LaunchSpec.mk job.argv job.cwd (mergeEnv ambient job.env) false,
    ?_, rfl, rfl, rfl, ?_, ?_⟩
  · simp [DirectRunner.execute]
  · intro k v hk
    simp [mergeEnv, hk]
  · intro k hk
    simp [mergeEnv, hk]

/-- Witness for C7 at a concrete runner, job and ambient environment. -/
theorem direct_runner_launch_witness :
    ∃ spec : LaunchSpec,
      OsEvent.spawnEv spec ∈
        (DirectRunner.execute ⟨["runs"]⟩ (fun _ => some "ambient")
          (fun _ => 0) (fun _ => 0)
          { name := "echo", argv := ["echo", "hi"], cwd := ["tmp"]
            env := [("K", "V")], run_id := "aaaa"
            created_at := "2026-01-01T00:00:00" }).2 ∧
      spec.argv = ["echo", "hi"] ∧
      spec.shell = false ∧
      spec.cwd = ["tmp"] ∧
      (∀ k v, ([("K", "V")] : List (String × String)).lookup k = some v →
        spec.env k = some v) ∧
      (∀ k, ([("K", "V")] : List (String × String)).lookup k = none →
        spec.env k = (fun _ => some "ambient") k) :=
  direct_runner_launch ⟨["runs"]⟩ (fun _ => some "ambient") (fun _ => 0) (fun _ => 0)
    { name := "echo", argv := ["echo", "hi"], cwd := ["tmp"]
      env := [("K", "V")], run_id := "aaaa", created_at := "2026-01-01T00:00:00" }

/-- The invariant holds at startup. -/
theorem coordInv_start : CoordInv CoordState.start := by
  intro rid
  refine ⟨by simp [ridLoad, CoordState.start], by simp [CoordState.start], ?_⟩
  intro i hi
  simp [CoordState.start] at hi

/-- The invariant is preserved by every pipeline step. -/
theorem coordInv_step {s t : CoordState} (hs : CoordInv s) (hstep : CoordStep s t) :
    CoordInv t := by
  cases hstep with
  | submit rid fresh =>
    intro q
    obtain ⟨h1, h2, h3⟩ := hs q
    have htc : (s.trace ++ [AppEvent.started rid]).count (AppEvent.finished q)
        = s.trace.count (AppEvent.finished q) := by
      simp [List.count_singleton]
    refine ⟨?_, ?_, ?_⟩
    · show (rid :: s.running).count q + s.inbox.count q
          + (s.trace ++ [AppEvent.started rid]).count (AppEvent.finished q) ≤ 1
      rw [htc]
      by_cases hq : q = rid
      · subst hq
        have hnr : q ∉ s.running := fun hm => fresh (h2 (Or.inl hm))
        have hni : q ∉ s.inbox := fun hm => fresh (h2 (Or.inr (Or.inl hm)))
        have hnf : AppEvent.finished q ∉ s.trace :=
          fun hm => fresh (h2 (Or.inr (Or.inr hm)))
        simp [List.count_cons, List.count_eq_zero.mpr hnr,
          List.count_eq_zero.mpr hni, List.count_eq_zero.mpr hnf]
      · have hc : (rid :: s.running).count q = s.running.count q := by
          simp [List.count_cons, hq]
        rw [hc]
        unfold ridLoad at h1
        omega
    · intro hmem
      rcases hmem with hm | hm | hm
      · rcases List.mem_cons.mp hm with hqe | hm'
        · subst hqe
          exact List.mem_append_right _ (List.mem_singleton.mpr rfl)
        · exact List.mem_append_left _ (h2 (Or.inl hm'))
      · exact List.mem_append_left _ (h2 (Or.inr (Or.inl hm)))
      · rcases List.mem_append.mp hm with hm' | hm'
        · exact List.mem_append_left _ (h2 (Or.inr (Or.inr hm')))
        · exact absurd (List.mem_singleton.mp hm') (by simp)
    · intro i hi hfin
      have hlen : (s.trace ++ [AppEvent.started rid]).length = s.trace.length + 1 := by
        simp
      by_cases hilt : i < s.trace.length
      · rw [List.getElem_append_left hilt] at hfin
        obtain ⟨j, hj, hji, hstj⟩ := h3 i hilt hfin
        refine ⟨j, by omega, hji, ?_⟩
        rw [List.getElem_append_left hj]
        exact hstj
      · have hieq : i = s.trace.length := by
          rw [hlen] at hi
          omega
        have hval : (s.trace ++ [AppEvent.started rid])[i] = AppEvent.started rid :=
          List.getElem_concat_length _ _ _ hieq _
        rw [hval] at hfin
        exact absurd hfin (by simp)
  | complete rid hmem =>
    intro q
    obtain ⟨h1, h2, h3⟩ := hs q
    refine ⟨?_, ?_, h3⟩
    · show (s.running.erase rid).count q + (s.inbox ++ [rid]).count q
          + s.trace.count (AppEvent.finished q) ≤ 1
      by_cases hq : q = rid
      · subst hq
        have e1 : (s.running.erase q).count q = s.running.count q - 1 :=
          List.count_erase_self q s.running
        have e2 : (s.inbox ++ [q]).count q = s.inbox.count q + 1 := by simp
        have e3 : 0 < s.running.count q := List.count_pos_iff.mpr hmem
        rw [e1, e2]
        unfold ridLoad at h1
        omega
      · have e1 : (s.running.erase rid).count q = s.running.count q :=
          List.count_erase_of_ne hq s.running
        have e2 : (s.inbox ++ [rid]).count q = s.inbox.count q := by
          simp [List.count_singleton, Ne.symm hq]
        rw [e1, e2]
        unfold ridLoad at h1
        omega
    · intro hmem'
      rcases hmem' with hm | hm | hm
      · exact h2 (Or.inl (List.mem_of_mem_erase hm))
      · rcases List.mem_append.mp hm with hm' | hm'
        · exact h2 (Or.inr (Or.inl hm'))
        · have hqr : q = rid := List.mem_singleton.mp hm'
          subst hqr
          exact h2 (Or.inl hmem)
      · exact h2 (Or.inr (Or.inr hm))
  | deliver rid rest hq =>
    intro q
    obtain ⟨h1, h2, h3⟩ := hs q
    refine ⟨?_, ?_, ?_⟩
    · show s.running.count q + rest.count q
          + (s.trace ++ [AppEvent.finished rid]).count (AppEvent.finished q) ≤ 1
      by_cases hq' : q = rid
      · subst hq'
        have hinb : s.inbox.count q = rest.count q + 1 := by
          rw [hq]
          simp [List.count_cons]
        have htr : (s.trace ++ [AppEvent.finished q]).count (AppEvent.finished q)
            = s.trace.count (AppEvent.finished q) + 1 := by simp
        rw [htr]
        unfold ridLoad at h1
        omega
      · have hinb : s.inbox.count q = rest.count q := by
          rw [hq]
          simp [List.count_cons, hq']
        have htr : (s.trace ++ [AppEvent.finished rid]).count (AppEvent.finished q)
            = s.trace.count (AppEvent.finished q) := by
          simp [List.count_singleton, Ne.symm hq']
        rw [htr]
        unfold ridLoad at h1
        omega
    · intro hmem'
      have hstarted : AppEvent.started q ∈ s.trace := by
        rcases hmem' with hm | hm | hm
        · exact h2 (Or.inl hm)
        · refine h2 (Or.inr (Or.inl ?_))
          rw [hq]
          exact List.mem_cons_of_mem rid hm
        · rcases List.mem_append.mp hm with hm' | hm'
          · exact h2 (Or.inr (Or.inr hm'))
          · have hqe : q = rid := by
              have := List.mem_singleton.mp hm'
              simpa using this
            subst hqe
            refine h2 (Or.inr (Or.inl ?_))
            rw [hq]
            exact List.mem_cons_self q rest
      exact List.mem_append_left _ hstarted
    · intro i hi hfin
      have hlen : (s.trace ++ [AppEvent.finished rid]).length = s.trace.length + 1 := by
        simp
      by_cases hilt : i < s.trace.length
      · rw [List.getElem_append_left hilt] at hfin
        obtain ⟨j, hj, hji, hstj⟩ := h3 i hilt hfin
        refine ⟨j, by omega, hji, ?_⟩
        rw [List.getElem_append_left hj]
        exact hstj
      · have hieq : i = s.trace.length := by
          rw [hlen] at hi
          omega
        have hval : (s.trace ++ [AppEvent.finished rid])[i] = AppEvent.finished rid :=
          List.getElem_concat_length _ _ _ hieq _
        rw [hval] at hfin
        have hqe : q = rid := by
          have := hfin.symm
          simpa using this
        subst hqe
        have hstarted : AppEvent.started q ∈ s.trace := by
          refine h2 (Or.inr (Or.inl ?_))
          rw [hq]
          exact List.mem_cons_self q rest
        obtain ⟨j, hjlen, hjeq⟩ := List.getElem_of_mem hstarted
        refine ⟨j, by omega, by omega, ?_⟩
        rw [List.getElem_append_left hjlen]
        exact hjeq

/-- Every reachable pipeline state satisfies the invariant. -/
theorem coordInv_reachable {s : CoordState} (hs : CoordReachable s) : CoordInv s := by
  induction hs with
  | base => exact coordInv_start
  | step _ hstep ih => exact coordInv_step ih hstep

/-- C3: in every reachable state of the coordination pipeline, every occurrence
of `record_finished` for a run id is strictly preceded in the trace by the
`record_started` call for the same run id, and `record_finished` is called at
most once per run id. -/
theorem coordinator_started_before_finished
    (s : CoordState) (hs : CoordReachable s) :
    (∀ rid : String, s.trace.count (AppEvent.finished rid) ≤ 1) ∧
    (∀ (rid : String) (i : Nat) (hi : i < s.trace.length),
      s.trace[i] = AppEvent.finished rid →
      ∃ (j : Nat) (hj : j < s.trace.length), j < i ∧
        s.trace[j] = AppEvent.started rid) := by
  have hinv := coordInv_reachable hs
  constructor
  · intro rid
    have h := (hinv rid).1
    unfold ridLoad at h
    omega
  · intro rid
    exact (hinv rid).2.2

/-- Witness for C3: the concrete lifecycle of one job, reached by submitting,
completing and delivering run id `a`. -/
theorem coordinator_started_before_finished_witness :
    (∀ rid : String, exCoordState.trace.count (AppEvent.finished rid) ≤ 1) ∧
    (∀ (rid : String) (i : Nat) (hi : i < exCoordState.trace.length),
      exCoordState.trace[i] = AppEvent.finished rid →
      ∃ (j : Nat) (hj : j < exCoordState.trace.length), j < i ∧
        exCoordState.trace[j] = AppEvent.started rid) := by
  have h1 : CoordReachable ⟨["a"], [], [AppEvent.started "a"]⟩ :=
    CoordReachable.step CoordReachable.base
      (CoordStep.submit CoordState.start "a" (by simp [CoordState.start]))
  have h2 : CoordReachable ⟨[], ["a"], [AppEvent.started "a"]⟩ :=
    CoordReachable.step h1
      (CoordStep.complete ⟨["a"], [], [AppEvent.started "a"]⟩ "a" (by simp))
  have h3 : CoordReachable exCoordState :=
    CoordReachable.step h2
      (CoordStep.deliver ⟨[], ["a"], [AppEvent.started "a"]⟩ "a" [] rfl)
  exact coordinator_started_before_finished exCoordState h3

/-- C9 records a divergence between the spec and app.py: when the
`record_finished` call inside `on_job_finished` fails, the handler propagates
the error and emits no UI event at all — in particular the terminal
notification for the job is never shown. -/
theorem on_job_finished_error_drops_notification
    (e : String) (job : Job) (result : JobResult) :
    on_job_finished (Except.error e) job result = Except.error e := rfl
